import Mathlib

/-!
# Verification of the cdkfs file-synthesis and merge engine

A shallow embedding, in Lean 4, of the core of the `cdkfs` repository:
the `ObjectFile` override/append/patch pipeline (`object-file.ts`),
`deepMerge` and `writeFile`/`getFilePermissions` (`util.ts`),
`FileBase.synthesize` and the `JsonFile` adapter (`file.ts`, `json.ts`),
the `Dependencies` registry (`deps/dependencies.ts`) and the `Tasks`
registry (`tasks.ts`).

JavaScript runtime values are modelled by the inductive type `JsVal`.
Plain objects are association lists in insertion order (the iteration
order of string-keyed JS objects whose keys are not array indices).
Arrays carry their element list plus the extra non-index properties a
JS program may attach to an array object (`deepMerge` does exactly
that when it merges a plain object into an array, and
`JSON.stringify` then ignores those properties).
-/

/-- A JavaScript runtime value, as manipulated by the synthesis engine.
`vUndef` is JS `undefined` (a key can be present with the value
`undefined`, which is distinct from the key being absent when the
object is iterated). `vArr` carries the element list and the extra
named (non-index) properties of the array object. Numbers are
modelled as integers; the engine only moves them around. -/
inductive JsVal where
  | vNull : JsVal
  | vUndef : JsVal
  | vBool (b : Bool) : JsVal
  | vNum (n : Int) : JsVal
  | vStr (s : String) : JsVal
  | vArr (elems : List JsVal) (props : List (String × JsVal)) : JsVal
  | vObj (entries : List (String × JsVal)) : JsVal
  deriving Inhabited

namespace JsVal

/-- JS truthiness of a value (`if (x)`). -/
def truthy : JsVal → Bool
  | vNull => false
  | vUndef => false
  | vBool b => b
  | vNum n => n != 0
  | vStr s => s ≠ ""
  | vArr _ _ => true
  | vObj _ => true

/-- `typeof x === 'object'` — true for `null`, arrays and objects. -/
def typeofIsObject : JsVal → Bool
  | vNull => true
  | vArr _ _ => true
  | vObj _ => true
  | _ => false

/-- `x === undefined`. -/
def isUndef : JsVal → Bool
  | vUndef => true
  | _ => false

/-- `util.isObject` from `util.ts`: not `null`, `typeof === 'object'`,
not an array, and a plain object (`constructor.name === 'Object'`). -/
def isPlainObject : JsVal → Bool
  | vObj _ => true
  | _ => false

end JsVal

open JsVal

/-- The numeric value of a decimal digit character. -/
def digitVal? (c : Char) : Option Nat :=
  if c = '0' then some 0
  else if c = '1' then some 1
  else if c = '2' then some 2
  else if c = '3' then some 3
  else if c = '4' then some 4
  else if c = '5' then some 5
  else if c = '6' then some 6
  else if c = '7' then some 7
  else if c = '8' then some 8
  else if c = '9' then some 9
  else none

/-- Accumulate the decimal digits of a canonical array-index string. -/
def digitsToNat? : List Char → Nat → Option Nat
  | [], acc => some acc
  | c :: rest, acc =>
    match digitVal? c with
    | some d => digitsToNat? rest (acc * 10 + d)
    | none => none

/-- A canonical JS array-index key: a string of decimal digits with no
leading zero (except `"0"` itself). Non-index keys become named
properties of the array object. -/
def jsIndexToNat? (key : String) : Option Nat :=
  match key.toList with
  | [] => none
  | '0' :: [] => some 0
  | '0' :: _ => none
  | cs => digitsToNat? cs 0

/-- Upsert into an association list, keeping the position of an
existing key (JS property assignment preserves insertion order). -/
def objUpsert (entries : List (String × JsVal)) (key : String) (v : JsVal) :
    List (String × JsVal) :=
  if entries.any (fun kv => kv.1 = key) then
    entries.map (fun kv => if kv.1 = key then (kv.1, v) else kv)
  else
    entries ++ [(key, v)]

/-- Property read, `x[key]`. Reading a missing property yields
`undefined`. (In JS, reading a property of `null`/`undefined` throws;
that situation is not reached by the code paths modelled here, and we
return `undefined` for it.) -/
def getKey (target : JsVal) (key : String) : JsVal :=
  match target with
  | vObj entries =>
    match entries.find? (fun kv => kv.1 = key) with
    | some kv => kv.2
    | none => vUndef
  | vArr elems props =>
    match jsIndexToNat? key with
    | some i => (elems.get? i).getD vUndef
    | none =>
      match props.find? (fun kv => kv.1 = key) with
      | some kv => kv.2
      | none => vUndef
  | _ => vUndef

/-- Property write, `x[key] = v`. On arrays a canonical index inside
the bounds updates the element, the index one past the end appends,
and any other key becomes an extra named property (sparse-array
extension is not modelled; it is not reached by the call sites
embedded here). Writes to primitives are silently dropped, as in
non-strict JS. -/
def setKey (target : JsVal) (key : String) (v : JsVal) : JsVal :=
  match target with
  | vObj entries => vObj (objUpsert entries key v)
  | vArr elems props =>
    match jsIndexToNat? key with
    | some i =>
      if i < elems.length then vArr (elems.set i v) props
      else if i = elems.length then vArr (elems ++ [v]) props
      else vArr elems (objUpsert props key v)
    | none => vArr elems (objUpsert props key v)
  | other => other

/-- Property deletion, `delete x[key]`. -/
def deleteKey (target : JsVal) (key : String) : JsVal :=
  match target with
  | vObj entries => vObj (entries.filter (fun kv => kv.1 ≠ key))
  | vArr elems props => vArr elems (props.filter (fun kv => kv.1 ≠ key))
  | other => other

/-- `Object.keys(x).length`. Keys holding `undefined` are counted (a
JS object can own a property whose value is `undefined`); for an
array both the indices and the extra named properties are counted.
(`Object.keys(null)` throws in JS; the modelled call sites guard with
`typeof === 'object'` which lets `null` through, but that corner is
not reached by the inputs considered here and we count 0.) -/
def jsKeysCount : JsVal → Nat
  | vObj entries => entries.length
  | vArr elems props => elems.length + props.length
  | _ => 0

/-- One escaped character of a JSON string literal, as produced by
`JSON.stringify` (the `\uXXXX` escapes for other control characters
are not modelled; the engine's keys and strings never need them). -/
def jsonEscapeChar (c : Char) : String :=
  if c = '"' then "\\\""
  else if c = '\\' then "\\\\"
  else if c = '\n' then "\\n"
  else if c = '\t' then "\\t"
  else if c = '\r' then "\\r"
  else String.singleton c

/-- A JSON string literal, as produced by `JSON.stringify`. -/
def jsonQuote (s : String) : String :=
  "\"" ++ String.join (s.toList.map jsonEscapeChar) ++ "\""

mutual

/-- `JSON.stringify(v, undefined, 2)` at the indentation prefix `ind`:
`none` exactly when the value is `undefined` (which `stringify` maps
to no output at the top level, to a dropped entry inside an object,
and to `null` inside an array). The extra named properties of an
array are ignored, as `JSON.stringify` does. -/
def jsStringifyAux (ind : String) : JsVal → Option String
  | vNull => some "null"
  | vUndef => none
  | vBool b => some (cond b "true" "false")
  | vNum n => some (toString n)
  | vStr s => some (jsonQuote s)
  | vArr elems _ =>
    match elems with
    | [] => some "[]"
    | _ =>
      let ind' := ind ++ "  "
      let items := jsStringifyElems ind' elems
      some ("[\n" ++ ind' ++ String.intercalate (",\n" ++ ind') items
            ++ "\n" ++ ind ++ "]")
  | vObj entries =>
    let ind' := ind ++ "  "
    let items := jsStringifyEntries ind' entries
    match items with
    | [] => some "\x7b\x7d"
    | _ =>
      some ("\x7b\n" ++ ind' ++ String.intercalate (",\n" ++ ind') items
            ++ "\n" ++ ind ++ "\x7d")
  termination_by structural v => v

/-- Array elements: `undefined` serializes as `null`. -/
def jsStringifyElems (ind : String) : List JsVal → List String
  | [] => []
  | e :: rest => ((jsStringifyAux ind e).getD "null") :: jsStringifyElems ind rest
  termination_by structural l => l

/-- Object entries: entries whose value serializes to nothing
(`undefined`) are dropped. -/
def jsStringifyEntries (ind : String) : List (String × JsVal) → List String
  | [] => []
  | (k, v) :: rest =>
    match jsStringifyAux ind v with
    | some s => (jsonQuote k ++ ": " ++ s) :: jsStringifyEntries ind rest
    | none => jsStringifyEntries ind rest
  termination_by structural l => l

end

/-- `JSON.stringify(v, undefined, 2)` on a defined value. The engine
only calls it on truthy values, for which `stringify` always returns
a string; the default is unreachable. -/
def jsStringify (v : JsVal) : String :=
  (jsStringifyAux "" v).getD ""

mutual

/-- The canonical value produced by `JSON.parse(JSON.stringify(v))` —
the sanitizing round-trip performed by `JsonFile.synthesizeContent`:
object entries holding `undefined` disappear, array elements that are
`undefined` become `null`, and the extra named properties of arrays
are dropped. -/
def jsSanitize : JsVal → JsVal
  | vObj entries => vObj (jsSanitizeEntries entries)
  | vArr elems _ => vArr (jsSanitizeElems elems) []
  | v => v
  termination_by structural v => v

/-- Entries of a sanitized object (see `jsSanitize`). -/
def jsSanitizeEntries : List (String × JsVal) → List (String × JsVal)
  | [] => []
  | (k, v) :: rest =>
    if v.isUndef then jsSanitizeEntries rest
    else (k, jsSanitize v) :: jsSanitizeEntries rest
  termination_by structural l => l

/-- Elements of a sanitized array (see `jsSanitize`). -/
def jsSanitizeElems : List JsVal → List JsVal
  | [] => []
  | e :: rest =>
    (if e.isUndef then vNull else jsSanitize e) :: jsSanitizeElems rest
  termination_by structural l => l

end

/-! ## `deepMerge` (`util.ts`)

`deepMerge(objects, destructive)` mutates the leftmost object,
folding every later object into it with `mergeOne`. `mergeOne`
iterates the keys of the source; a plain-object source value is
merged recursively (after overwriting a non-`object`-typed target
slot with the source value itself — in JS that aliases the two, so
the recursive merge is a self-merge of the source value, which the
pure recursion below computes identically), an `undefined` source
value deletes the key in destructive mode, and any other value is
assigned. After a recursive merge, destructive mode deletes the key
whenever the merged result is `typeof 'object'` with no own keys.

The source file has no special case for the `__$APPEND` marker that
`ObjectFile.addToArray` records: the marker is merged like any other
plain object. -/

mutual

/-- The key loop of `mergeOne`: fold the source's entries into the
target. -/
def mergeEntries (d : Bool) (target : JsVal) :
    List (String × JsVal) → JsVal
  | [] => target
  | (k, v) :: rest => mergeEntries d (mergeKey d target k v) rest
  termination_by structural l => l

/-- One iteration of the `mergeOne` key loop (see `deepMerge`). -/
def mergeKey (d : Bool) (target : JsVal) (key : String) : JsVal → JsVal
  | vObj ventries =>
    -- `isObject(value)`: recurse. If `typeof(target[key]) !== 'object'`
    -- the code first assigns `target[key] = value`; merging the source
    -- value into itself leaves exactly the result of the pure
    -- self-merge computed here.
    let t := getKey target key
    let t0 := if t.typeofIsObject then t else vObj ventries
    let merged := mergeEntries d t0 ventries
    if d && merged.typeofIsObject && jsKeysCount merged = 0 then
      deleteKey target key
    else
      setKey target key merged
  | vUndef =>
    -- `value === undefined && destructive`: delete; without
    -- destructive mode the key is left untouched.
    if d then deleteKey target key else target
  | v => setKey target key v
  termination_by structural v => v

end

/-- `mergeOne(target, source)` from `deepMerge`. `Object.keys` of a
non-object source is empty, so the loop body never runs for it (the
modelled call sites only pass plain objects as sources). -/
def mergeOne (d : Bool) (target source : JsVal) : JsVal :=
  match source with
  | vObj entries => mergeEntries d target entries
  | _ => target

/-- `x != null` (loose): neither `null` nor `undefined`. -/
def jsNotNullish : JsVal → Bool
  | vNull => false
  | vUndef => false
  | _ => true

/-- `deepMerge(objects, destructive)` from `util.ts`: drop nullish
arguments, then fold the rest into the first with `mergeOne`,
returning the (mutated) first object, or `{}` when nothing is left. -/
def deepMerge (objects : List JsVal) (destructive : Bool) : JsVal :=
  let others := objects.filter jsNotNullish
  match others with
  | [] => vObj []
  | into :: rest => rest.foldl (mergeOne destructive) into

/-! ## `ObjectFile` (`object-file.ts`) -/

/-- `splitOnPeriods` from `object-file.ts`: split a dotted override
path on `.`, with `\` escaping the following character. The source
builds the segment list in reverse and reverses at the end; this
recursion produces that exact list. A trailing lone backslash is kept
literally (the escape fires only when a next character exists). -/
def splitOnPeriods (x : String) : List String :=
  go x.toList ""
where
  /-- Consume the characters, accumulating the current segment. -/
  go : List Char → String → List String
    | [], acc => [acc]
    | '\\' :: c :: rest, acc => go rest (acc.push c)
    | '.' :: rest, acc => acc :: go rest ""
    | c :: rest, acc => go rest (acc.push c)

/-- An RFC-6902 operation, as queued by `ObjectFile.patch` and applied
by `fast-json-patch`'s `applyOperation`. Paths are modelled as the
already-split list of JSON-pointer segments (`"/a/b"` ↦ `["a","b"]`;
pointer unescaping is not modelled). `move`/`copy` are not needed by
the claims and are omitted. -/
inductive PatchOp where
  | add (path : List String) (value : JsVal)
  | remove (path : List String)
  | replace (path : List String) (value : JsVal)
  | test (path : List String) (value : JsVal)
  deriving Inhabited

/-- The state of an `ObjectFile`: the base object `obj` (mutable until
synthesis), the raw-overrides tree, and the queued patch operations,
plus the `omitEmpty` flag. -/
structure ObjectFileState where
  obj : JsVal
  rawOverrides : JsVal
  patchOperations : List PatchOp
  omitEmpty : Bool

/-- Options accepted by the `ObjectFile` constructor. `obj : Option
JsVal` distinguishes an absent option (`undefined`) from a present
value; `some vNull`/`some vUndef` are the JS `null`/`undefined`
values. -/
structure ObjectFileOptions where
  obj : Option JsVal := none
  omitEmpty : Option Bool := none

/-- `x ?? d` — nullish coalescing. -/
def jsNullish (x : Option JsVal) (d : JsVal) : JsVal :=
  match x with
  | none => d
  | some vNull => d
  | some vUndef => d
  | some v => v

/-- The `ObjectFile` constructor: `obj = options.obj ?? {}`,
`omitEmpty = options.omitEmpty ?? false`, empty overrides, no
patches. -/
def objectFileNew (options : ObjectFileOptions) : ObjectFileState :=
  { obj := jsNullish options.obj (vObj [])
    rawOverrides := vObj []
    patchOperations := []
    omitEmpty := options.omitEmpty.getD false }

/-- The descent loop shared by `addOverride` and `addToArray`: walk
the raw-overrides tree along the path, overwriting any slot that is
not a non-array object with `{}`, then apply `fin` to the last
parent/key pair. The JS loop mutates the shared tree; this rebuild
computes the same tree. -/
def overridePathGo (fin : JsVal → String → JsVal) :
    JsVal → List String → JsVal
  | curr, [] => curr
  | curr, [last] => fin curr last
  | curr, key :: rest =>
    let sub := getKey curr key
    -- `curr[key] != null && typeof === 'object' && !Array.isArray(...)`
    let sub' := match sub with
      | vObj e => vObj e
      | _ => vObj []
    setKey curr key (overridePathGo fin sub' rest)

/-- `ObjectFile.addOverride(path, value)`: record `value` at the
dotted `path` in the raw-overrides tree, creating intermediate plain
objects as needed. -/
def addOverride (st : ObjectFileState) (path : String) (value : JsVal) :
    ObjectFileState :=
  { st with
    rawOverrides :=
      overridePathGo (fun curr last => setKey curr last value)
        st.rawOverrides (splitOnPeriods path) }

/-- `ObjectFile.addDeletionOverride(path)` — sugar for
`addOverride(path, undefined)`. -/
def addDeletionOverride (st : ObjectFileState) (path : String) :
    ObjectFileState :=
  addOverride st path vUndef

/-- `ObjectFile.addToArray(path, ...values)`: if the overrides tree
already holds a concrete array at `path`, push in place; otherwise
record the append-marker object `{__$APPEND: values}` to be resolved
at merge time. -/
def addToArray (st : ObjectFileState) (path : String) (values : List JsVal) :
    ObjectFileState :=
  { st with
    rawOverrides :=
      overridePathGo
        (fun curr last =>
          match getKey curr last with
          | vArr elems props => setKey curr last (vArr (elems ++ values) props)
          | _ => setKey curr last (vObj [("__$APPEND", vArr values [])]))
        st.rawOverrides (splitOnPeriods path) }

/-- `ObjectFile.patch(...ops)`: queue raw JSON-patch operations. -/
def filePatch (st : ObjectFileState) (ops : List PatchOp) : ObjectFileState :=
  { st with patchOperations := st.patchOperations ++ ops }

/-! ## `fast-json-patch` (`applyOperation`) and the resolver -/

mutual

/-- Deep JSON equality, modelling `fast-json-patch`'s `_areEquals`
(used by `test` operations): arrays compare by length and elements
(extra named properties are ignored), objects by their own keys. -/
def jsDeepEq : JsVal → JsVal → Bool
  | vNull, vNull => true
  | vUndef, vUndef => true
  | vBool a, vBool b => a == b
  | vNum a, vNum b => a == b
  | vStr a, vStr b => a == b
  | vArr a _, vArr b _ => jsDeepEqElems a b
  | vObj a, vObj b => jsDeepEqEntries a b
  | _, _ => false
  termination_by structural a => a

/-- Elementwise deep equality of arrays. -/
def jsDeepEqElems : List JsVal → List JsVal → Bool
  | [], [] => true
  | a :: as', b :: bs' => jsDeepEq a b && jsDeepEqElems as' bs'
  | _, _ => false
  termination_by structural l => l

/-- Entrywise deep equality of objects (entries in the same order; the
documents compared by the claims are built in a fixed order, so
positional comparison agrees with key-set comparison there). -/
def jsDeepEqEntries : List (String × JsVal) → List (String × JsVal) → Bool
  | [], [] => true
  | (ka, va) :: as', (kb, vb) :: bs' =>
    ka == kb && jsDeepEq va vb && jsDeepEqEntries as' bs'
  | _, _ => false
  termination_by structural l => l

end

/-- The error thrown by `fast-json-patch` (`JsonPatchError`): its
`name`, the `index` argument the caller passed to `applyOperation`,
the offending operation, and the document (`tree`) at the moment of
failure. -/
structure PatchError where
  name : String
  index : Nat
  operation : PatchOp
  tree : JsVal

/-- Read the value at a JSON-pointer path (`undefined` when the path
does not resolve). -/
def getPath : JsVal → List String → JsVal
  | doc, [] => doc
  | doc, seg :: rest => getPath (getKey doc seg) rest

/-- Set the value at a JSON-pointer path for `add`/`replace`: on the
last segment, an object key is assigned and an array position `"-"`
appends, a numeric position inserts before that index. Intermediate
segments must already resolve (the modelled operations of the claims
always use resolvable paths). -/
def setPath : JsVal → List String → JsVal → JsVal
  | _doc, [], value =>
    -- replacing the root: `applyOperation` returns the new document
    -- (the source loop ignores that return value for root paths).
    value
  | doc, [last], value =>
    match doc with
    | vArr elems props =>
      if last = "-" then vArr (elems ++ [value]) props
      else
        match jsIndexToNat? last with
        | some i => vArr (elems.take i ++ value :: elems.drop i) props
        | none => setKey (vArr elems props) last value
    | other => setKey other last value
  | doc, seg :: rest, value =>
    setKey doc seg (setPath (getKey doc seg) rest value)

/-- Remove the value at a JSON-pointer path (arrays splice the
index out). -/
def removePath : JsVal → List String → JsVal
  | doc, [] => doc
  | doc, [last] =>
    match doc with
    | vArr elems props =>
      match jsIndexToNat? last with
      | some i => vArr (elems.take i ++ elems.drop (i + 1)) props
      | none => deleteKey (vArr elems props) last
    | other => deleteKey other last
  | doc, seg :: rest =>
    setKey doc seg (removePath (getKey doc seg) rest)

/-- `applyOperation(document, operation, validateOperation = true,
mutateDocument = true, banPrototypeModifications, index)` from
`fast-json-patch`, as invoked by `ObjectFile.synthesizeContent`. A
failed `test` operation throws `JsonPatchError` with name
`TEST_OPERATION_FAILED`, carrying the `index` argument and the
document at the moment of failure. -/
def applyOperation (doc : JsVal) (op : PatchOp) (index : Nat) :
    Except PatchError JsVal :=
  match op with
  | .add path value => .ok (setPath doc path value)
  | .replace path value => .ok (setPath doc path value)
  | .remove path => .ok (removePath doc path)
  | .test path value =>
    if jsDeepEq (getPath doc path) value then .ok doc
    else
      .error
        { name := "TEST_OPERATION_FAILED"
          index := index
          operation := .test path value
          tree := doc }

/-- The patch loop of `ObjectFile.synthesizeContent`: apply each
queued operation in order, mutating the document. Every call passes
no `index` argument, so `applyOperation` receives its default `0`. A
thrown error aborts the loop (and the file's synthesis). -/
def applyOps (doc : JsVal) : List PatchOp → Except PatchError JsVal
  | [] => .ok doc
  | op :: rest => do
    let doc' ← applyOperation doc op 0
    applyOps doc' rest

mutual

/-- Modelled from the spec: the resolver (`_resolve.ts`) is imported
by `file.ts` but is not under `src/`. Per §4.1, it walks the value
depth-first; deferred thunks do not occur in the value graphs
considered here, plain objects, arrays and scalars pass through
unchanged except for the omit-empty filter: a map key is dropped when
its resolved value is an empty map, an empty sequence or `undefined`,
and sequences drop `undefined` elements. With `omitEmpty = false`
the value passes through unchanged. -/
def resolveVal (omitEmpty : Bool) : JsVal → JsVal
  | vObj entries => vObj (resolveEntries omitEmpty entries)
  | vArr elems props =>
    vArr
      (if omitEmpty then
        (resolveElems omitEmpty elems).filter (fun e => !e.isUndef)
      else resolveElems omitEmpty elems)
      props
  | v => v
  termination_by structural v => v

/-- Resolve the entries of a map (see `resolveVal`). -/
def resolveEntries (omitEmpty : Bool) :
    List (String × JsVal) → List (String × JsVal)
  | [] => []
  | (k, v) :: rest =>
    let r := resolveVal omitEmpty v
    if omitEmpty && (r.isUndef || jsKeysCount r = 0 && r.typeofIsObject) then
      resolveEntries omitEmpty rest
    else
      (k, r) :: resolveEntries omitEmpty rest
  termination_by structural l => l

/-- Resolve the elements of a sequence (see `resolveVal`). -/
def resolveElems (omitEmpty : Bool) : List JsVal → List JsVal
  | [] => []
  | e :: rest => resolveVal omitEmpty e :: resolveElems omitEmpty rest
  termination_by structural l => l

end

/-- The document `ObjectFile.synthesizeContent` obtains before the
patch loop: resolve the base object (`?? undefined` turns a `null`
result into `undefined`), then, when the result is truthy,
destructively deep-merge the raw overrides on top of it. -/
def objectFileMergedDoc (st : ObjectFileState) : JsVal :=
  let resolved :=
    match resolveVal st.omitEmpty st.obj with
    | vNull => vUndef
    | v => v
  if resolved.truthy then deepMerge [resolved, st.rawOverrides] true
  else resolved

/-- The value produced by `ObjectFile.synthesizeContent` after the
patch loop (before serialization): a thrown patch error aborts the
file's synthesis. -/
def objectFileSynthValue (st : ObjectFileState) :
    Except PatchError JsVal :=
  applyOps (objectFileMergedDoc st) st.patchOperations

/-- `ObjectFile.synthesizeContent`: serialize the patched document
with `JSON.stringify(resolved, undefined, 2)` when it is truthy,
otherwise return `undefined` (the file is skipped). -/
def objectFileSynthesizeContent (st : ObjectFileState) :
    Except PatchError (Option String) :=
  (objectFileSynthValue st).map fun v =>
    if v.truthy then some (jsStringify v) else none

/-! ## `JsonFile` (`json.ts`) -/

/-- Options for `JsonFile` (the `ObjectFile` options plus
`newline`). -/
structure JsonFileOptions where
  obj : Option JsVal := none
  omitEmpty : Option Bool := none
  newline : Option Bool := none

/-- The state of a constructed `JsonFile`. -/
structure JsonFileState where
  file : ObjectFileState
  newline : Bool

/-- The `JsonFile` constructor: run the `ObjectFile` constructor
(which defaults a missing `obj` to `{}`), read `newline ?? true`,
then throw `'"obj" cannot be undefined'` whenever `options.obj` is
falsy — so the inherited default never survives for JSON files. -/
def jsonFileNew (options : JsonFileOptions) : Except String JsonFileState :=
  let st := objectFileNew { obj := options.obj, omitEmpty := options.omitEmpty }
  let newline := options.newline.getD true
  if !(match options.obj with
      | some v => v.truthy
      | none => false) then
    .error "\"obj\" cannot be undefined"
  else
    .ok { file := st, newline := newline }

/-- `JsonFile.synthesizeContent`: take the `ObjectFile` content; when
it is falsy (`undefined`; a produced JSON text is never the empty
string) skip the file, otherwise re-parse and re-stringify it with
2-space indent — modelled as `jsStringify (jsSanitize v)` on the
patched document `v`, since the `ObjectFile` content is
`JSON.stringify v` and `JSON.parse` of that text is `jsSanitize v` —
appending a trailing newline when `newline` is set. -/
def jsonFileSynthesizeContent (jf : JsonFileState) :
    Except PatchError (Option String) :=
  match objectFileSynthValue jf.file with
  | .error e => .error e
  | .ok v =>
    if v.truthy then
      .ok (some (jsStringify (jsSanitize v) ++ (if jf.newline then "\n" else "")))
    else
      .ok none

/-! ## Filesystem model, `writeFile` and `getFilePermissions`
(`util.ts`) -/

/-- A file on disk: its byte content and its permission mode (the
octal string passed to `chmod`). -/
structure FileEntry where
  content : String
  mode : String

/-- The filesystem: an association from absolute paths to files
(directories are not modelled; `mkdirpSync` has no observable effect
here). -/
abbrev FS := List (String × FileEntry)

/-- Look a path up in the filesystem. -/
def fsLookup (fs : FS) (path : String) : Option FileEntry :=
  (List.find? (fun kv => kv.1 = path) fs).map (fun kv => kv.2)

/-- Create or overwrite a file. -/
def fsSet (fs : FS) (path : String) (e : FileEntry) : FS :=
  if (List.any fs (fun kv => kv.1 = path)) then
    List.map (fun kv => if kv.1 = path then (kv.1, e) else kv) fs
  else
    fs ++ [(path, e)]

/-- Options of `util.writeFile` (both default to `false`). -/
structure WriteFileOptions where
  executable : Option Bool := none
  readonly : Option Bool := none

/-- `getFilePermissions` from `util.ts`: the
`readonly` × `executable` matrix. -/
def getFilePermissions (options : WriteFileOptions) : String :=
  let readonly := options.readonly.getD false
  let executable := options.executable.getD false
  if readonly && executable then "500"
  else if readonly then "400"
  else if executable then "755"
  else "644"

/-- `writeFile` from `util.ts`: relax an existing file to mode `600`,
create parent directories, write the data, then `chmod` to the
permission matrix. -/
def writeFile (fs : FS) (filePath : String) (data : String)
    (options : WriteFileOptions) : FS :=
  let fs1 :=
    match fsLookup fs filePath with
    | some e => fsSet fs filePath { e with mode := "600" }
    | none => fs
  let fs2 :=
    match fsLookup fs1 filePath with
    | some e => fsSet fs1 filePath { e with content := data }
    | none => fsSet fs1 filePath { content := data, mode := "666" }
  fsSet fs2 filePath { content := data, mode := getFilePermissions options }

/-- Modelled from the spec: `tryReadFileSync` is imported by
`file.ts` but its definition is not under `src/`; per §4.2 it reads
"the existing file at the target path if present", yielding
`undefined` when there is none. -/
def tryReadFileSync (fs : FS) (filePath : String) : Option String :=
  (fsLookup fs filePath).map (fun e => e.content)

/-! ## `FileBase` (`file.ts`) -/

/-- `path.join(outdir, filePath)`, the on-disk location used by
`FileBase.synthesize`. -/
def pathJoin (outdir filePath : String) : String :=
  outdir ++ "/" ++ filePath

/-- Options of the `FileBase` constructor (the git-related options do
not affect the properties verified here and are omitted). -/
structure FileBaseOptions where
  readonly : Option Bool := none
  executable : Option Bool := none

/-- The state of a `FileBase`: its project-relative path, the
permission bits, and the `changed` tri-state (`none` until the file
is synthesized). -/
structure FileBaseState where
  path : String
  readonly : Bool
  executable : Bool
  changed : Option Bool

/-- Modelled from the spec: `path.resolve(outdir, filePath)` for a
project-relative `filePath`. Path normalization (`.`/`..` segments)
is not modelled; distinct relative paths denote distinct absolute
paths. -/
def pathResolve (outdir filePath : String) : String × String :=
  (outdir, filePath)

/-- Modelled from the spec: `path.relative(outdir, absolutePath)` for
an absolute path inside `outdir`. -/
def pathRelative (outdir : String) (abs : String × String) : String :=
  let _u := outdir
  abs.2

/-- Modelled from the spec: the root project's registry of all
file-bearing components by absolute path (§3 "a registry of all
Components/Files by absolute path for collision detection"), which
`project.root.tryFindFile` consults. -/
structure ProjectState where
  outdir : String
  registry : List (String × String)

/-- Modelled from the spec: `project.root.tryFindFile(absolutePath)` —
is a file component registered at this absolute path? -/
def tryFindFile (p : ProjectState) (abs : String × String) : Bool :=
  p.registry.contains abs

/-- The `FileBase` constructor: read the permission bits
(`readonly ?? true`, `executable ?? false`), resolve the absolute
path, and throw — naming the conflicting relative path — when a file
component is already registered at that path anywhere in the project
tree; otherwise register the new file. All of this happens at
construction time, before any synthesis. -/
def fileBaseConstruct (p : ProjectState) (filePath : String)
    (options : FileBaseOptions) :
    Except String (ProjectState × FileBaseState) :=
  let absolutePath := pathResolve p.outdir filePath
  if tryFindFile p absolutePath then
    .error ("there is already a file under " ++ pathRelative p.outdir absolutePath)
  else
    .ok
      ({ p with registry := p.registry ++ [absolutePath] },
       { path := filePath
         readonly := options.readonly.getD true
         executable := options.executable.getD false
         changed := none })

/-- `FileBase.synthesize`, parameterized by the content the subclass's
`synthesizeContent` produced: `undefined` skips the file entirely
(nothing recorded, nothing written); otherwise compare with the
previous on-disk content — byte-identical content records
`changed = false` and does not touch the filesystem, anything else is
written through `writeFile` with the file's permission bits and
records `changed = true`. -/
def fileBaseSynthesize (fb : FileBaseState) (content : Option String)
    (outdir : String) (fs : FS) : FileBaseState × FS :=
  let filePath := pathJoin outdir fb.path
  match content with
  | none => (fb, fs)
  | some c =>
    let prev := tryReadFileSync fs filePath
    match prev with
    | some p =>
      if c = p then ({ fb with changed := some false }, fs)
      else
        ({ fb with changed := some true },
         writeFile fs filePath c
           { readonly := some fb.readonly, executable := some fb.executable })
    | none =>
      ({ fb with changed := some true },
       writeFile fs filePath c
         { readonly := some fb.readonly, executable := some fb.executable })

/-! ## `Dependencies` (`deps/dependencies.ts`) -/

/-- The dependency types (`deps/model.ts`, per §3 of the spec). -/
inductive DependencyType where
  | runtime | dev | peer | build | test | bundled
  deriving DecidableEq, Inhabited

/-- A recorded dependency: coordinates (name, optional version), a
type and free-form metadata. -/
structure Dependency where
  name : String
  version : Option String
  dtype : DependencyType
  metadata : List (String × JsVal)

/-- JS `Array.prototype.findIndex`, with the JS result `-1` modelled
as `none`. -/
def jsFindIndex {α : Type} (p : α → Bool) : List α → Option Nat
  | [] => none
  | x :: xs => if p x then some 0 else (jsFindIndex p xs).map (· + 1)

/-- Splitting a string on `@` (`spec.split('@')`), structurally over
the character list. -/
def splitOnAt : List Char → String → List String
  | [], acc => [acc]
  | '@' :: rest, acc => acc :: splitOnAt rest ""
  | c :: rest, acc => splitOnAt rest (acc.push c)

/-- See `parseDependency`: its body, on the spec with any scope `@`
already removed. -/
def parseDependency₀ (scope : Bool) (spec' : String) :
    String × Option String :=
  match splitOnAt spec'.toList "" with
  | [] => ("", none)
  | module :: version =>
    let name := if scope then "@" ++ module else module
    if version.isEmpty then (name, none)
    else (name, some (String.intercalate "@" version))

/-- `Dependencies.parseDependency`: `foo@^3.4.0` ↦ name `foo`,
version `^3.4.0`; a leading `@` marks a scope (`spec.startsWith('@')`
followed by `spec.substr(1)`), so `@scope/a@1.2` splits after the
scope. The version keeps any further `@`s (`bar@npm:@bar/legacy`). -/
def parseDependency (spec : String) : String × Option String :=
  match spec.toList with
  | '@' :: rest => parseDependency₀ true (String.mk rest)
  | _ => parseDependency₀ false spec

/-- `Dependencies.tryGetDependencyIndex`: find the single entry with
this name and type. With no `type` argument it infers the type when
exactly one entry carries the name, and throws when several types do;
a JS `findIndex` result of `-1` is modelled as `none`. -/
def tryGetDependencyIndex (deps : List Dependency) (name : String)
    (dtype : Option DependencyType) : Except String (Option Nat) :=
  let named := deps.filter (fun d => d.name = name)
  if named.isEmpty then
    .ok none
  else
    match dtype with
    | none =>
      if named.length > 1 then
        .error ("\"" ++ name ++ "\" is defined for multiple dependency types. Please specify dependency type")
      else
        match named.head? with
        | some d =>
          .ok (jsFindIndex (fun e => decide (e.name = name ∧ e.dtype = d.dtype)) deps)
        | none => .ok none
    | some t =>
      .ok (jsFindIndex (fun e => decide (e.name = name ∧ e.dtype = t)) deps)

/-- `Dependencies.addDependency(spec, type, metadata)`: parse the
spec; when an entry with the same (name, type) exists, replace it if
its version was unspecified or equal, and throw when the versions
conflict; otherwise push the new entry. Returns the recorded
dependency and the new registry. -/
def addDependency (deps : List Dependency) (spec : String)
    (dtype : DependencyType) (metadata : List (String × JsVal)) :
    Except String (Dependency × List Dependency) :=
  let coords := parseDependency spec
  let dep : Dependency :=
    { name := coords.1, version := coords.2, dtype := dtype
      metadata := metadata }
  match tryGetDependencyIndex deps dep.name (some dtype) with
  | .error e => .error e
  | .ok none => .ok (dep, deps ++ [dep])
  | .ok (some i) =>
    match deps.get? i with
    | none => .ok (dep, deps ++ [dep])
    | some existingDep =>
      if dep.version = existingDep.version ∨ existingDep.version = none then
        .ok (dep, deps.set i dep)
      else
        .error ("\"" ++ dep.name ++ "\" is already specified with different version: "
          ++ existingDep.version.getD "undefined")

/-- `Dependencies.removeDependency(name, type?)`: splice the entry
out when found; the lookup may throw when `type` is omitted and the
name is ambiguous. -/
def removeDependency (deps : List Dependency) (name : String)
    (dtype : Option DependencyType) : Except String (List Dependency) :=
  match tryGetDependencyIndex deps name dtype with
  | .error e => .error e
  | .ok none => .ok deps
  | .ok (some i) => .ok (deps.eraseIdx i)

/-- A call against the `Dependencies` registry. -/
inductive DepOp where
  | add (spec : String) (dtype : DependencyType)
      (metadata : List (String × JsVal))
  | remove (name : String) (dtype : Option DependencyType)

/-- Run one registry call. A thrown error propagates to the caller
before any mutation, leaving the registry as it was. -/
def depApply (deps : List Dependency) : DepOp → List Dependency
  | .add spec t md =>
    match addDependency deps spec t md with
    | .ok r => r.2
    | .error _ => deps
  | .remove name t =>
    match removeDependency deps name t with
    | .ok r => r
    | .error _ => deps

/-- The registry reached from an empty `Dependencies` component by a
sequence of calls. -/
def depRun (ops : List DepOp) : List Dependency :=
  ops.foldl depApply []

/-- No two entries share a (name, type) pair. -/
def DepsDistinct (deps : List Dependency) : Prop :=
  List.Pairwise (fun a b => ¬(a.name = b.name ∧ a.dtype = b.dtype)) deps

/-! ## `Tasks` (`tasks.ts`) -/

/-- One step of a task: a shell command and/or a sub-task reference
by name (`task-model.ts`). `Task` is taken by the Lean core, so the
source's `TaskStep`/`Task` are prefixed with `Proj`. -/
structure ProjTaskStep where
  exec : Option String := none
  spawn : Option String := none
  deriving DecidableEq

/-- A task: a unique name and its ordered steps. -/
structure ProjTask where
  name : String
  steps : List ProjTaskStep
  deriving DecidableEq

/-- The `_tasks` map of the `Tasks` component, keyed by task name.
JS object keys are unique; `addTask` throws on a duplicate name, so
the name-keyed list never holds two tasks of the same name. -/
abbrev TasksState := List ProjTask

/-- `Tasks.addTask(name)`: throw when a task with the name exists,
otherwise record the new task. -/
def addTask (ts : TasksState) (name : String) (steps : List ProjTaskStep) :
    Except String (TasksState × ProjTask) :=
  if (ts.find? (fun t => t.name = name)).isSome then
    .error ("A task with the name " ++ name ++ " already exists. To override it, call removeTask first and then create the new task.")
  else
    let task : ProjTask := { name := name, steps := steps }
    .ok (ts ++ [task], task)

/-- `Tasks.removeTask(name)`: when any registered task has a step
spawning `name`, throw an error listing the dependent task names and
leave the registry untouched; otherwise delete and return the task,
or return `undefined` when no task carries the name. The result pairs
the thrown-or-returned value with the registry afterwards. -/
def removeTask (ts : TasksState) (name : String) :
    Except String (Option ProjTask) × TasksState :=
  let dependentTasks :=
    ts.filter (fun task => (task.steps.find? (fun s => s.spawn = some name)).isSome)
  if !dependentTasks.isEmpty then
    (.error ("Unable to remove task \"" ++ name
        ++ "\" because the following tasks depend on it: "
        ++ String.intercalate ", " (dependentTasks.map (fun t => t.name))),
     ts)
  else
    match ts.find? (fun t => t.name = name) with
    | some task => (.ok (some task), ts.filter (fun t => t.name ≠ name))
    | none => (.ok none, ts)

/-! ## Claims -/

/-- Claim C1 (evaluation at the failing input). The claim promises
that with a base array `x.y = ["m"]` and `addToArray('x.y', "n")` the
synthesized object holds `["m","n"]` at `x.y`. The code records the
marker `{__$APPEND: ["n"]}` in the overrides, but `deepMerge` in
`util.ts` has no handling for the marker: it merges the marker object
INTO the base array, attaching `__$APPEND` as a named array property,
which `JSON.stringify` then drops. The appended value is lost: the
synthesized value keeps `x.y = ["m"]` (first conjunct shows the
merged value with the stranded marker property, second the serialized
output without `"n"` and without the marker). -/
theorem c1_addToArray_append_dropped :
    objectFileSynthValue
      (addToArray
        (objectFileNew { obj := some (vObj [("x", vObj [("y", vArr [vStr "m"] [])])]) })
        "x.y" [vStr "n"]) =
      .ok (vObj [("x", vObj [("y",
        vArr [vStr "m"] [("__$APPEND", vArr [vStr "n"] [])])])])
    ∧ objectFileSynthesizeContent
        (addToArray
          (objectFileNew { obj := some (vObj [("x", vObj [("y", vArr [vStr "m"] [])])]) })
          "x.y" [vStr "n"]) =
      .ok (some "\x7b\n  \"x\": \x7b\n    \"y\": [\n      \"m\"\n    ]\n  \x7d\n\x7d") :=
  ⟨rfl, rfl⟩

/-- Claim C3: overrides deep-merge on top of the resolved base object.
With base `{a:{b:3}}`: `addOverride('a.c',4)` synthesizes
`{a:{b:3,c:4}}`; following with `addDeletionOverride('a.b')`
synthesizes `{a:{c:4}}` — the key is removed entirely, not set to
null. An object emptied by such a deletion is pruned recursively
(`{a:{b:3}}` minus `a.b` gives `{}`, and `{a:{b:{c:3}}}` minus
`a.b.c` gives `{}`), while a sibling concrete value blocks the prune
(`{a:{b:3,z:1}}` minus `a.b` gives `{a:{z:1}}`). -/
theorem c3_override_precedence :
    objectFileSynthValue
      (addOverride
        (objectFileNew { obj := some (vObj [("a", vObj [("b", vNum 3)])]) })
        "a.c" (vNum 4)) =
      .ok (vObj [("a", vObj [("b", vNum 3), ("c", vNum 4)])])
    ∧ objectFileSynthValue
        (addDeletionOverride
          (addOverride
            (objectFileNew { obj := some (vObj [("a", vObj [("b", vNum 3)])]) })
            "a.c" (vNum 4))
          "a.b") =
      .ok (vObj [("a", vObj [("c", vNum 4)])])
    ∧ objectFileSynthValue
        (addDeletionOverride
          (objectFileNew { obj := some (vObj [("a", vObj [("b", vNum 3)])]) })
          "a.b") =
      .ok (vObj [])
    ∧ objectFileSynthValue
        (addDeletionOverride
          (objectFileNew
            { obj := some (vObj [("a", vObj [("b", vNum 3), ("z", vNum 1)])]) })
          "a.b") =
      .ok (vObj [("a", vObj [("z", vNum 1)])])
    ∧ objectFileSynthValue
        (addDeletionOverride
          (objectFileNew
            { obj := some (vObj [("a", vObj [("b", vObj [("c", vNum 3)])])]) })
          "a.b.c") =
      .ok (vObj []) :=
  ⟨rfl, rfl, rfl, rfl, rfl⟩

/-- The two logically identical but differently-ordered base objects
of claim C5's round-trip scenario. -/
def c5ObjBA : JsVal := vObj [("b", vNum 1), ("a", vNum 2)]

/-- See `c5ObjBA`. -/
def c5ObjAB : JsVal := vObj [("a", vNum 2), ("b", vNum 1)]

/-- The `JsonFile` built on `c5ObjBA`. -/
def c5FileBA : JsonFileState :=
  { file := objectFileNew { obj := some c5ObjBA }, newline := true }

/-- The `JsonFile` built on `c5ObjAB`. -/
def c5FileAB : JsonFileState :=
  { file := objectFileNew { obj := some c5ObjAB }, newline := true }

/-- Claim C5 is false on the code: `JSON.stringify` keeps the
insertion order of (non-index) keys, and neither the re-parse nor the
re-stringify in `JsonFile.synthesizeContent` sorts them. The two base
objects map `a ↦ 2, b ↦ 1` alike (same key set, same values — first
three conjuncts), yet their synthesized bytes differ (last
conjunct). -/
theorem c5_counterexample :
    getKey c5ObjBA "a" = getKey c5ObjAB "a"
    ∧ getKey c5ObjBA "b" = getKey c5ObjAB "b"
    ∧ ["b", "a"].Perm ["a", "b"]
    ∧ jsonFileSynthesizeContent c5FileBA =
        .ok (some "\x7b\n  \"b\": 1,\n  \"a\": 2\n\x7d\n")
    ∧ jsonFileSynthesizeContent c5FileAB =
        .ok (some "\x7b\n  \"a\": 2,\n  \"b\": 1\n\x7d\n")
    ∧ "\x7b\n  \"b\": 1,\n  \"a\": 2\n\x7d\n" ≠
        "\x7b\n  \"a\": 2,\n  \"b\": 1\n\x7d\n" :=
  ⟨rfl, rfl, by decide, rfl, rfl, by decide⟩

/-- Claim C5, amended: serialization is deterministic for each given
input — the constructor accepts each base and synthesis produces
exactly the canonical 2-space-indented text with a trailing newline,
in the input's key order — but two logically identical bases with
differently-ordered keys produce different (JSON-equivalent, not
byte-identical) outputs. -/
theorem c5_canonical_bytes_per_input :
    jsonFileNew { obj := some c5ObjBA } = .ok c5FileBA
    ∧ jsonFileSynthesizeContent c5FileBA =
        .ok (some "\x7b\n  \"b\": 1,\n  \"a\": 2\n\x7d\n")
    ∧ jsonFileNew { obj := some c5ObjAB } = .ok c5FileAB
    ∧ jsonFileSynthesizeContent c5FileAB =
        .ok (some "\x7b\n  \"a\": 2,\n  \"b\": 1\n\x7d\n") :=
  ⟨rfl, rfl, rfl, rfl⟩

/-- Claim C10: `new JsonFile(..)` without a base object throws
`'"obj" cannot be undefined'` at construction time (first conjunct),
even though the parent `ObjectFile` constructor defaults a missing
`obj` to `{}` (third conjunct) — and every successfully constructed
`JsonFile` was given a truthy `options.obj` (second conjunct). -/
theorem c10_jsonfile_requires_obj :
    (∀ nl oe,
      jsonFileNew { obj := none, omitEmpty := oe, newline := nl } =
        .error "\"obj\" cannot be undefined")
    ∧ (∀ options st, jsonFileNew options = .ok st →
        ∃ v, options.obj = some v ∧ v.truthy = true)
    ∧ (objectFileNew { obj := none }).obj = vObj [] := by
  refine ⟨fun nl oe => rfl, fun options st h => ?_, rfl⟩
  unfold jsonFileNew at h
  cases hobj : options.obj with
  | none => rw [hobj] at h; simp at h
  | some v =>
    rw [hobj] at h
    by_cases ht : v.truthy
    · exact ⟨v, rfl, ht⟩
    · simp [ht] at h

/-- Closed witness for `c10_jsonfile_requires_obj`: the error at a
concrete option record, and a concrete successful construction whose
`obj` was provided and truthy. -/
theorem c10_jsonfile_requires_obj_witness :
    jsonFileNew { obj := none, omitEmpty := none, newline := none } =
      .error "\"obj\" cannot be undefined"
    ∧ ∃ v, (some (vObj [("a", vNum 1)]) : Option JsVal) = some v
        ∧ v.truthy = true :=
  ⟨c10_jsonfile_requires_obj.1 none none,
   c10_jsonfile_requires_obj.2.1
     { obj := some (vObj [("a", vNum 1)]), omitEmpty := none, newline := none }
     { file := objectFileNew { obj := some (vObj [("a", vNum 1)]) }
       newline := true }
     rfl⟩

/-- The `ObjectFile` of claim C2's counterexample: an empty base with
the queued patch batch `[add /a 1, test /a 2, add /b 3]`. The `test`
at position 1 fails (after the merge, `/a` holds `1`, not `2`). -/
def c2File : ObjectFileState :=
  filePatch (objectFileNew { obj := some (vObj []) })
    [.add ["a"] (vNum 1), .test ["a"] (vNum 2), .add ["b"] (vNum 3)]

/-- Claim C2 is false on the code in two of its parts.
`ObjectFile.synthesizeContent` loops `applyOperation(resolved,
operation, true, true)` over the queue, never passing the loop index,
so `applyOperation`'s `index` parameter keeps its default `0`: the
thrown error reports index 0 although the failing `test` sits at
position 1 (second/third conjuncts). And the loop mutates the
document in place, so at the moment of failure the document already
contains the effect of the earlier `add` — it is not "as if no
operation of the batch had been applied" (fourth/fifth conjuncts:
the failure-time document maps `a ↦ 1`, unlike the pre-batch
document `{}`). -/
theorem c2_counterexample :
    objectFileSynthValue c2File =
      .error
        { name := "TEST_OPERATION_FAILED"
          index := 0
          operation := .test ["a"] (vNum 2)
          tree := vObj [("a", vNum 1)] }
    ∧ c2File.patchOperations.take 1 = [.add ["a"] (vNum 1)]
    ∧ (0 : Nat) ≠ 1
    ∧ objectFileMergedDoc c2File = vObj []
    ∧ jsKeysCount (vObj [("a", vNum 1)]) ≠ jsKeysCount (vObj []) :=
  ⟨rfl, rfl, by decide, rfl, by decide⟩

/-- `applyOps` processes a batch strictly left to right. -/
theorem applyOps_append (pre post : List PatchOp) (doc : JsVal) :
    applyOps doc (pre ++ post) =
      (applyOps doc pre).bind (fun d => applyOps d post) := by
  induction pre generalizing doc with
  | nil => rfl
  | cons op rest ih =>
    simp only [List.cons_append, applyOps]
    cases applyOperation doc op 0 with
    | error e => rfl
    | ok d => simpa using ih d

/-- An `applyOperation` error is a failed `test`, and it carries the
`index` argument it was called with. -/
theorem applyOperation_error_index (doc : JsVal) (op : PatchOp) (i : Nat)
    (e : PatchError) (h : applyOperation doc op i = .error e) :
    e.index = i ∧ e.name = "TEST_OPERATION_FAILED" ∧ e.tree = doc := by
  cases op with
  | add path value => exact absurd h (by simp [applyOperation])
  | replace path value => exact absurd h (by simp [applyOperation])
  | remove path => exact absurd h (by simp [applyOperation])
  | test path value =>
    simp only [applyOperation] at h
    split at h
    · exact absurd h (by simp)
    · cases h
      exact ⟨rfl, rfl, rfl⟩

/-- Claim C2, amended: during `ObjectFile.synthesizeContent` the
queued operations are applied strictly in the order added; a failed
`test` operation throws, so no later operation of the batch is
applied and the file's synthesis aborts with the error — but the
error reports index 0 whatever the failing operation's position (the
loop never passes its index to `applyOperation`), and the operations
before the failure have already been applied to the in-memory
document: the error's `tree` is the document after the prefix, not
the pre-batch document. -/
theorem c2_patch_order_and_abort (st : ObjectFileState)
    (pre : List PatchOp) (op : PatchOp) (post : List PatchOp)
    (d : JsVal) (e : PatchError)
    (hops : st.patchOperations = pre ++ op :: post)
    (hpre : applyOps (objectFileMergedDoc st) pre = .ok d)
    (herr : applyOperation d op 0 = .error e) :
    objectFileSynthValue st = .error e
    ∧ e.index = 0
    ∧ e.tree = d := by
  obtain ⟨hi, _hn, ht⟩ := applyOperation_error_index d op 0 e herr
  refine ⟨?_, hi, ht⟩
  unfold objectFileSynthValue
  rw [hops, applyOps_append, hpre]
  show applyOps d (op :: post) = .error e
  unfold applyOps
  rw [herr]
  rfl

/-- Closed witness for `c2_patch_order_and_abort`, at the
counterexample file: prefix `[add /a 1]`, failing `test` at position
1, suffix `[add /b 3]`. -/
theorem c2_patch_order_and_abort_witness :
    objectFileSynthValue c2File =
      .error
        { name := "TEST_OPERATION_FAILED"
          index := 0
          operation := .test ["a"] (vNum 2)
          tree := vObj [("a", vNum 1)] } :=
  (c2_patch_order_and_abort c2File
    [.add ["a"] (vNum 1)] (.test ["a"] (vNum 2)) [.add ["b"] (vNum 3)]
    (vObj [("a", vNum 1)])
    { name := "TEST_OPERATION_FAILED", index := 0
      operation := .test ["a"] (vNum 2), tree := vObj [("a", vNum 1)] }
    rfl rfl rfl).1

/-- Writing a path makes it present with exactly the written entry. -/
theorem fsLookup_fsSet_self (fs : FS) (p : String) (e : FileEntry) :
    fsLookup (fsSet fs p e) p = some e := by
  induction fs with
  | nil => simp [fsSet, fsLookup]
  | cons hd tl ih =>
    by_cases hk : hd.1 = p
    · simp [fsSet, fsLookup, hk]
    · by_cases ha : tl.any (fun kv => kv.1 = p)
      · simp only [fsSet, List.any_cons, hk, ha] at ih ⊢
        simpa [fsLookup, hk] using ih
      · simp only [fsSet, List.any_cons, hk, ha] at ih ⊢
        simpa [fsLookup, hk] using ih

/-- `writeFile` leaves the target path holding the written data with
the permission-matrix mode. -/
theorem fsLookup_writeFile (fs : FS) (p : String) (data : String)
    (options : WriteFileOptions) :
    fsLookup (writeFile fs p data options) p =
      some { content := data, mode := getFilePermissions options } := by
  unfold writeFile
  exact fsLookup_fsSet_self _ p _

/-- Second-run idempotence holds from any starting filesystem, also
when the first pass had to write: the first pass leaves the exact
bytes on disk, so the second records `changed = false` and does not
touch the filesystem. -/
theorem c4_second_run_unchanged (fb : FileBaseState) (outdir : String)
    (fs : FS) (c : String) :
    fileBaseSynthesize
      (fileBaseSynthesize fb (some c) outdir fs).1 (some c) outdir
      (fileBaseSynthesize fb (some c) outdir fs).2 =
    ({ (fileBaseSynthesize fb (some c) outdir fs).1 with
        changed := some false },
     (fileBaseSynthesize fb (some c) outdir fs).2) := by
  show fileBaseSynthesize
      (fileBaseSynthesize fb (some c) outdir fs).1 (some c) outdir
      (fileBaseSynthesize fb (some c) outdir fs).2 =
    ({ (fileBaseSynthesize fb (some c) outdir fs).1 with
        changed := some false },
     (fileBaseSynthesize fb (some c) outdir fs).2)
  have hw : ∀ fs' : FS, tryReadFileSync
      (writeFile fs' (pathJoin outdir fb.path) c
        { readonly := some fb.readonly, executable := some fb.executable })
      (pathJoin outdir fb.path) = some c := by
    intro fs'
    unfold tryReadFileSync
    rw [fsLookup_writeFile]
    rfl
  cases hprev : tryReadFileSync fs (pathJoin outdir fb.path) with
  | some p =>
    by_cases hc : c = p
    · subst hc
      have h1 : fileBaseSynthesize fb (some c) outdir fs =
          ({ fb with changed := some false }, fs) := by
        simp [fileBaseSynthesize, hprev]
      rw [h1]
      simp [fileBaseSynthesize, hprev]
    · have h1 : fileBaseSynthesize fb (some c) outdir fs =
          ({ fb with changed := some true },
           writeFile fs (pathJoin outdir fb.path) c
             { readonly := some fb.readonly,
               executable := some fb.executable }) := by
        simp [fileBaseSynthesize, hprev, hc]
      rw [h1]
      simp [fileBaseSynthesize, hw fs]
  | none =>
    have h1 : fileBaseSynthesize fb (some c) outdir fs =
        ({ fb with changed := some true },
         writeFile fs (pathJoin outdir fb.path) c
           { readonly := some fb.readonly,
             executable := some fb.executable }) := by
      simp [fileBaseSynthesize, hprev]
    rw [h1]
    simp [fileBaseSynthesize, hw fs]

/-- Claim C4: synthesis is idempotent. When the newly synthesized
content is byte-identical to the content on disk, `synthesize`
records `changed = false` and performs no filesystem operation — no
write, no permission change (first conjunct); consequently a second
synthesis pass producing the same content as the first — the content
is a pure function of the unchanged definition — records
`changed = false` for the file and leaves every byte and mode as the
first pass left them (second conjunct, with no assumption on the
starting filesystem). -/
theorem c4_synthesis_idempotent (fb : FileBaseState) (outdir : String)
    (fs : FS) (c : String) :
    (tryReadFileSync fs (pathJoin outdir fb.path) = some c →
      fileBaseSynthesize fb (some c) outdir fs =
        ({ fb with changed := some false }, fs))
    ∧ fileBaseSynthesize
        (fileBaseSynthesize fb (some c) outdir fs).1 (some c) outdir
        (fileBaseSynthesize fb (some c) outdir fs).2 =
      ({ (fileBaseSynthesize fb (some c) outdir fs).1 with
          changed := some false },
       (fileBaseSynthesize fb (some c) outdir fs).2) := by
  refine ⟨fun h => by simp [fileBaseSynthesize, h], ?_⟩
  exact c4_second_run_unchanged fb outdir fs c

/-- Closed witness for `c4_synthesis_idempotent`: a file whose disk
content already equals the synthesized content is left untouched with
`changed = false`. -/
theorem c4_synthesis_idempotent_witness :
    fileBaseSynthesize
      { path := "package.json", readonly := true, executable := false,
        changed := none }
      (some "x") "out"
      [("out/package.json", { content := "x", mode := "400" })] =
      ({ path := "package.json", readonly := true, executable := false,
         changed := some false },
       [("out/package.json", { content := "x", mode := "400" })]) :=
  (c4_synthesis_idempotent
    { path := "package.json", readonly := true, executable := false,
      changed := none }
    "out"
    [("out/package.json", { content := "x", mode := "400" })]
    "x").1 rfl

/-- Claim C6: the final permission mode of a written file is exactly
determined by the `(readonly, executable)` pair — `(true,true) ↦ 500`,
`(true,false) ↦ 400`, `(false,true) ↦ 755`, `(false,false) ↦ 644` —
both at the `writeFile`/`getFilePermissions` level (first four
conjuncts, for every filesystem, path and content) and through
`FileBase.synthesize` whenever it writes (last conjunct: whenever the
disk content differs from the synthesized content, the file ends with
the matrix mode for the file's bits). -/
theorem c6_permission_matrix :
    (∀ fs p c, fsLookup
        (writeFile fs p c { readonly := some true, executable := some true }) p =
      some { content := c, mode := "500" })
    ∧ (∀ fs p c, fsLookup
        (writeFile fs p c { readonly := some true, executable := some false }) p =
      some { content := c, mode := "400" })
    ∧ (∀ fs p c, fsLookup
        (writeFile fs p c { readonly := some false, executable := some true }) p =
      some { content := c, mode := "755" })
    ∧ (∀ fs p c, fsLookup
        (writeFile fs p c { readonly := some false, executable := some false }) p =
      some { content := c, mode := "644" })
    ∧ (∀ (fb : FileBaseState) outdir fs c,
        tryReadFileSync fs (pathJoin outdir fb.path) ≠ some c →
        fsLookup ((fileBaseSynthesize fb (some c) outdir fs).2)
            (pathJoin outdir fb.path) =
          some { content := c
                 mode :=
                   if fb.readonly && fb.executable then "500"
                   else if fb.readonly then "400"
                   else if fb.executable then "755"
                   else "644" }) := by
  refine ⟨fun fs p c => fsLookup_writeFile fs p c _,
    fun fs p c => fsLookup_writeFile fs p c _,
    fun fs p c => fsLookup_writeFile fs p c _,
    fun fs p c => fsLookup_writeFile fs p c _,
    fun fb outdir fs c h => ?_⟩
  have hmode :
      getFilePermissions
        { readonly := some fb.readonly, executable := some fb.executable } =
      if fb.readonly && fb.executable then "500"
      else if fb.readonly then "400"
      else if fb.executable then "755"
      else "644" := by
    unfold getFilePermissions
    cases fb.readonly <;> cases fb.executable <;> rfl
  cases hprev : tryReadFileSync fs (pathJoin outdir fb.path) with
  | some p =>
    have hc : c ≠ p := fun hcp => h (hcp ▸ hprev)
    have h1 : (fileBaseSynthesize fb (some c) outdir fs).2 =
        writeFile fs (pathJoin outdir fb.path) c
          { readonly := some fb.readonly, executable := some fb.executable } := by
      simp [fileBaseSynthesize, hprev, hc]
    rw [h1, fsLookup_writeFile, hmode]
  | none =>
    have h1 : (fileBaseSynthesize fb (some c) outdir fs).2 =
        writeFile fs (pathJoin outdir fb.path) c
          { readonly := some fb.readonly, executable := some fb.executable } := by
      simp [fileBaseSynthesize, hprev]
    rw [h1, fsLookup_writeFile, hmode]

/-- Closed witness for `c6_permission_matrix`: synthesis of a
readonly, executable file onto an empty filesystem (disk content
`none ≠ some c`) leaves mode `500`. -/
theorem c6_permission_matrix_witness :
    fsLookup
      ((fileBaseSynthesize
        { path := "run.sh", readonly := true, executable := true,
          changed := none }
        (some "echo") "out" []).2)
      (pathJoin "out" "run.sh") =
      some { content := "echo", mode := "500" } :=
  c6_permission_matrix.2.2.2.2
    { path := "run.sh", readonly := true, executable := true, changed := none }
    "out" [] "echo" (by simp [tryReadFileSync, fsLookup])

/-- Claim C7: constructing a `FileBase` whose resolved absolute path
is already registered anywhere in the project tree throws at
construction time — before any synthesis — with an error naming the
conflicting relative path. First conjunct: a registered collision
makes the constructor throw exactly that error. Second conjunct:
constructing a second file component at the same relative path right
after a successful first construction throws the same error. -/
theorem c7_duplicate_path_rejected (p : ProjectState) (f : String)
    (o : FileBaseOptions) :
    (tryFindFile p (pathResolve p.outdir f) = true →
      fileBaseConstruct p f o =
        .error ("there is already a file under " ++ f))
    ∧ (∀ (o' : FileBaseOptions) (p' : ProjectState) (fb : FileBaseState),
        fileBaseConstruct p f o = .ok (p', fb) →
        fileBaseConstruct p' f o' =
          .error ("there is already a file under " ++ f)) := by
  constructor
  · intro h
    simp [fileBaseConstruct, pathRelative, pathResolve]
    exact h
  · intro o' p' fb h
    simp only [fileBaseConstruct] at h
    by_cases hf : tryFindFile p (pathResolve p.outdir f) = true
    · rw [if_pos hf] at h; cases h
    · rw [if_neg hf] at h
      cases h
      have hfind : tryFindFile
          { p with registry := p.registry ++ [pathResolve p.outdir f] }
          (pathResolve p.outdir f) = true := by
        simp [tryFindFile]
      simp [fileBaseConstruct, pathRelative, pathResolve]
      exact hfind

/-- Closed witness for `c7_duplicate_path_rejected`: constructing
`package.json` twice in a fresh project throws on the second
construction, naming the relative path. -/
theorem c7_duplicate_path_rejected_witness :
    fileBaseConstruct
      { outdir := "proj", registry := [pathResolve "proj" "package.json"] }
      "package.json" {} =
      .error ("there is already a file under " ++ "package.json") :=
  (c7_duplicate_path_rejected
    { outdir := "proj", registry := [pathResolve "proj" "package.json"] }
    "package.json" {}).1 (by simp [tryFindFile])

/-- A task depends on `n` exactly when one of its steps spawns `n`. -/
def dependsOn (n : String) (t : ProjTask) : Bool :=
  (t.steps.find? (fun s => s.spawn = some n)).isSome

/-- `dependsOn` captures "some step spawns `n`". -/
theorem dependsOn_iff (n : String) (t : ProjTask) :
    dependsOn n t = true ↔ ∃ s ∈ t.steps, s.spawn = some n := by
  unfold dependsOn
  rw [List.find?_isSome]
  simp

/-- Claim C9: if any registered task spawns `n` as a sub-task,
`removeTask n` throws an error listing the names of all dependent
tasks and leaves the registry unchanged (first conjunct); otherwise
it deletes and returns the task named `n` (second conjunct), or
returns `undefined` and changes nothing when no task carries the name
(third conjunct). -/
theorem c9_removeTask (ts : TasksState) (n : String) :
    ((∃ t ∈ ts, ∃ s ∈ t.steps, s.spawn = some n) →
      removeTask ts n =
        (.error ("Unable to remove task \"" ++ n
            ++ "\" because the following tasks depend on it: "
            ++ String.intercalate ", "
                ((ts.filter (dependsOn n)).map (fun t => t.name))),
         ts))
    ∧ ((¬ ∃ t ∈ ts, ∃ s ∈ t.steps, s.spawn = some n) →
        (∀ task, ts.find? (fun t => t.name = n) = some task →
          removeTask ts n =
            (.ok (some task), ts.filter (fun t => t.name ≠ n)))
        ∧ (ts.find? (fun t => t.name = n) = none →
          removeTask ts n = (.ok none, ts))) := by
  have hdep : (∃ t ∈ ts, ∃ s ∈ t.steps, s.spawn = some n) ↔
      ¬(ts.filter (dependsOn n)).isEmpty = true := by
    rw [List.isEmpty_iff]
    constructor
    · rintro ⟨t, ht, hs⟩ hnil
      have : t ∈ ts.filter (dependsOn n) :=
        List.mem_filter.2 ⟨ht, (dependsOn_iff n t).2 hs⟩
      rw [hnil] at this
      exact absurd this (List.not_mem_nil t)
    · intro hne
      rcases List.exists_mem_of_ne_nil _ hne with ⟨t, ht⟩
      rcases List.mem_filter.1 ht with ⟨hmem, hdep⟩
      exact ⟨t, hmem, (dependsOn_iff n t).1 hdep⟩
  constructor
  · intro hex
    have hne' : (ts.filter (dependsOn n)).isEmpty = false := by
      rcases hb : (ts.filter (dependsOn n)).isEmpty with _ | _
      · rfl
      · exact absurd hb (hdep.1 hex)
    unfold removeTask
    rw [show (ts.filter (fun task =>
        (task.steps.find? (fun s => s.spawn = some n)).isSome)) =
        ts.filter (dependsOn n) from rfl]
    simp [hne']
  · intro hnex
    have hemp : (ts.filter (dependsOn n)).isEmpty = true := by
      rcases hb : (ts.filter (dependsOn n)).isEmpty with _ | _
      · exact absurd (hdep.2 (by simp [hb])) hnex
      · rfl
    constructor
    · intro task hfind
      unfold removeTask
      rw [show (ts.filter (fun task =>
          (task.steps.find? (fun s => s.spawn = some n)).isSome)) =
          ts.filter (dependsOn n) from rfl]
      simp [hemp, hfind]
    · intro hfind
      unfold removeTask
      rw [show (ts.filter (fun task =>
          (task.steps.find? (fun s => s.spawn = some n)).isSome)) =
          ts.filter (dependsOn n) from rfl]
      simp [hemp, hfind]

/-- Closed witness for `c9_removeTask`: in a registry where `build`
spawns `compile`, removing `compile` throws naming `build` and leaves
the registry unchanged; and removing `build` (which nothing spawns)
deletes it. -/
theorem c9_removeTask_witness :
    removeTask
      [{ name := "build", steps := [{ spawn := some "compile" }] },
       { name := "compile", steps := [] }]
      "compile" =
      (.error ("Unable to remove task \"compile\" because the following tasks depend on it: build"),
       [{ name := "build", steps := [{ spawn := some "compile" }] },
        { name := "compile", steps := [] }])
    ∧ removeTask
        [{ name := "build", steps := [{ spawn := some "compile" }] },
         { name := "compile", steps := [] }]
        "build" =
      (.ok (some { name := "build", steps := [{ spawn := some "compile" }] }),
       [{ name := "compile", steps := [] }]) := by
  constructor
  · exact (c9_removeTask
      [{ name := "build", steps := [{ spawn := some "compile" }] },
       { name := "compile", steps := [] }] "compile").1
      (by decide)
  · exact ((c9_removeTask
      [{ name := "build", steps := [{ spawn := some "compile" }] },
       { name := "compile", steps := [] }] "build").2
      (by decide)).1
      { name := "build", steps := [{ spawn := some "compile" }] }
      (by rfl)

/-- A `jsFindIndex` miss means no element satisfies the predicate. -/
theorem jsFindIndex_eq_none {α : Type} (p : α → Bool) (l : List α)
    (h : jsFindIndex p l = none) : ∀ x ∈ l, ¬p x = true := by
  induction l with
  | nil => intro x hx; cases hx
  | cons y ys ih =>
    intro x hx
    unfold jsFindIndex at h
    by_cases hy : p y
    · rw [if_pos hy] at h; cases h
    · rw [if_neg hy] at h
      cases hx with
      | head => exact hy
      | tail _ hx' => exact ih (by simpa using h) x hx' 

/-- A `jsFindIndex` hit points at an element satisfying the
predicate. -/
theorem jsFindIndex_some {α : Type} (p : α → Bool) (l : List α) (i : Nat)
    (h : jsFindIndex p l = some i) :
    ∃ a, l.get? i = some a ∧ p a = true := by
  induction l generalizing i with
  | nil => cases h
  | cons y ys ih =>
    unfold jsFindIndex at h
    by_cases hy : p y
    · rw [if_pos hy] at h
      cases h
      exact ⟨y, rfl, hy⟩
    · rw [if_neg hy] at h
      rcases Option.map_eq_some'.mp h with ⟨j, hj, hji⟩
      subst hji
      rcases ih j hj with ⟨a, hget, hpa⟩
      exact ⟨a, by simpa using hget, hpa⟩

/-- When `tryGetDependencyIndex` (with an explicit type) reports "not
found", no entry carries the pair. -/
theorem tryGetDependencyIndex_none (deps : List Dependency) (name : String)
    (t : DependencyType)
    (h : tryGetDependencyIndex deps name (some t) = .ok none) :
    ∀ e ∈ deps, ¬(e.name = name ∧ e.dtype = t) := by
  intro e he
  simp only [tryGetDependencyIndex] at h
  by_cases hnamed : (deps.filter (fun d => d.name = name)).isEmpty
  · intro ⟨hn, _⟩
    rw [List.isEmpty_iff, List.filter_eq_nil_iff] at hnamed
    exact hnamed e he (by simpa using hn)
  · rw [if_neg hnamed] at h
    cases hfi : jsFindIndex (fun e => decide (e.name = name ∧ e.dtype = t)) deps with
    | some i => rw [hfi] at h; cases h
    | none =>
      have := jsFindIndex_eq_none _ _ hfi e he
      simpa using this

/-- When `tryGetDependencyIndex` (with an explicit type) reports index
`i`, the entry there carries the pair. -/
theorem tryGetDependencyIndex_some (deps : List Dependency) (name : String)
    (t : DependencyType) (i : Nat)
    (h : tryGetDependencyIndex deps name (some t) = .ok (some i)) :
    ∃ e, deps.get? i = some e ∧ e.name = name ∧ e.dtype = t := by
  simp only [tryGetDependencyIndex] at h
  by_cases hnamed : (deps.filter (fun d => d.name = name)).isEmpty
  · rw [if_pos hnamed] at h; cases h
  · rw [if_neg hnamed] at h
    cases hfi : jsFindIndex (fun e => decide (e.name = name ∧ e.dtype = t)) deps with
    | none => rw [hfi] at h; cases h
    | some j =>
      rw [hfi] at h
      cases h
      rcases jsFindIndex_some _ _ _ hfi with ⟨a, hget, hpa⟩
      exact ⟨a, hget, by simpa using hpa⟩

/-- Replacing a list element by one related to everything the old
element was related to preserves pairwise-ness. -/
theorem pairwise_set_congr {α : Type} {R : α → α → Prop} :
    ∀ (l : List α) (i : Nat) (a b : α),
    List.Pairwise R l → l.get? i = some a →
    (∀ c, (R a c → R b c) ∧ (R c a → R c b)) →
    List.Pairwise R (l.set i b)
  | [], _, _, _, _, hg, _ => by cases hg
  | x :: xs, 0, a, b, hp, hg, hab => by
    cases hg
    rw [List.set]
    rcases List.pairwise_cons.mp hp with ⟨hx, hxs⟩
    exact List.pairwise_cons.mpr ⟨fun c hc => (hab c).1 (hx c hc), hxs⟩
  | x :: xs, i + 1, a, b, hp, hg, hab => by
    rw [List.set]
    rcases List.pairwise_cons.mp hp with ⟨hx, hxs⟩
    refine List.pairwise_cons.mpr ⟨fun c hc => ?_, ?_⟩
    · rcases List.mem_or_eq_of_mem_set hc with hc' | hc'
      · exact hx c hc'
      · subst hc'
        exact (hab x).2 (hx a (List.get?_mem (by simpa using hg)))
    · exact pairwise_set_congr xs i a b hxs (by simpa using hg) hab

/-- `addDependency` keeps the registry free of duplicate
(name, type) pairs. -/
theorem addDependency_distinct (deps : List Dependency) (spec : String)
    (t : DependencyType) (md : List (String × JsVal)) (dep : Dependency)
    (deps' : List Dependency)
    (hd : DepsDistinct deps)
    (h : addDependency deps spec t md = .ok (dep, deps')) :
    DepsDistinct deps' := by
  simp only [addDependency] at h
  cases htry : tryGetDependencyIndex deps (parseDependency spec).1 (some t) with
  | error e => rw [htry] at h; cases h
  | ok idx =>
    rw [htry] at h
    cases idx with
    | none =>
      cases h
      have hnone := tryGetDependencyIndex_none deps (parseDependency spec).1 t htry
      unfold DepsDistinct
      rw [List.pairwise_append]
      refine ⟨hd, List.pairwise_singleton _ _, fun a ha b hb => ?_⟩
      rcases List.mem_singleton.mp hb with rfl
      intro ⟨hn, ht⟩
      exact hnone a ha ⟨hn, ht⟩
    | some i =>
      dsimp only at h
      rcases tryGetDependencyIndex_some deps _ t i htry with ⟨ex0, hge0, hn0, ht0⟩
      cases hget : deps.get? i with
      | none => rw [hget] at hge0; cases hge0
      | some ex =>
        rw [hget] at hge0
        cases hge0
        rw [hget] at h
        dsimp only at h
        by_cases hv : (parseDependency spec).2 = ex0.version ∨ ex0.version = none
        · rw [if_pos hv] at h
          cases h
          refine pairwise_set_congr deps i ex0 _ hd hget fun c => ⟨?_, ?_⟩
          · intro hr hcon
            exact hr ⟨by rw [hn0]; exact hcon.1, by rw [ht0]; exact hcon.2⟩
          · intro hr hcon
            exact hr ⟨by rw [hn0]; exact hcon.1, by rw [ht0]; exact hcon.2⟩
        · rw [if_neg hv] at h
          cases h

/-- `removeDependency` keeps the registry free of duplicate
(name, type) pairs. -/
theorem removeDependency_distinct (deps : List Dependency) (name : String)
    (t : Option DependencyType) (deps' : List Dependency)
    (hd : DepsDistinct deps)
    (h : removeDependency deps name t = .ok deps') :
    DepsDistinct deps' := by
  unfold removeDependency at h
  cases htry : tryGetDependencyIndex deps name t with
  | error e => rw [htry] at h; cases h
  | ok idx =>
    rw [htry] at h
    cases idx with
    | none => cases h; exact hd
    | some i =>
      cases h
      exact List.Pairwise.sublist (List.eraseIdx_sublist deps i) hd

/-- Every registry reachable by `Dependencies` calls is duplicate-free. -/
theorem depRun_distinct (ops : List DepOp) : DepsDistinct (depRun ops) := by
  suffices hstep : ∀ (ops : List DepOp) (s : List Dependency),
      DepsDistinct s → DepsDistinct (ops.foldl depApply s) by
    exact hstep ops [] List.Pairwise.nil
  intro ops
  induction ops with
  | nil => intro s hs; exact hs
  | cons op rest ih =>
    intro s hs
    refine ih (depApply s op) ?_
    cases op with
    | add spec t md =>
      cases hadd : addDependency s spec t md with
      | ok r =>
        simp only [depApply, hadd]
        exact addDependency_distinct s spec t md r.1 r.2 hs (by rw [hadd])
      | error e => simp only [depApply, hadd]; exact hs
    | remove name t =>
      cases hrem : removeDependency s name t with
      | ok r =>
        simp only [depApply, hrem]
        exact removeDependency_distinct s name t r hs hrem
      | error e => simp only [depApply, hrem]; exact hs

/-- Claim C8: the `Dependencies` registry keeps at most one entry per
(name, type) pair. First conjunct: every state reachable from the
empty registry by any sequence of `addDependency`/`removeDependency`
calls is duplicate-free. Second conjunct: adding a spec whose
(name, type) pair is already present replaces the existing entry in
place when its version was unspecified or equal to the new one, and
throws — naming the conflicting version — otherwise; in both cases no
second entry for the pair appears. -/
theorem c8_dependency_uniqueness :
    (∀ ops : List DepOp, DepsDistinct (depRun ops))
    ∧ (∀ (deps : List Dependency) (spec : String) (t : DependencyType)
        (md : List (String × JsVal)) (i : Nat) (ex : Dependency),
        tryGetDependencyIndex deps (parseDependency spec).1 (some t) =
          .ok (some i) →
        deps.get? i = some ex →
        (((parseDependency spec).2 = ex.version ∨ ex.version = none) →
          addDependency deps spec t md =
            .ok ({ name := (parseDependency spec).1
                   version := (parseDependency spec).2
                   dtype := t, metadata := md },
                 deps.set i
                   { name := (parseDependency spec).1
                     version := (parseDependency spec).2
                     dtype := t, metadata := md }))
        ∧ (¬((parseDependency spec).2 = ex.version ∨ ex.version = none) →
          addDependency deps spec t md =
            .error ("\"" ++ (parseDependency spec).1
              ++ "\" is already specified with different version: "
              ++ ex.version.getD "undefined"))) := by
  refine ⟨depRun_distinct, fun deps spec t md i ex htry hget => ⟨?_, ?_⟩⟩
  · intro hv
    simp only [addDependency]
    rw [htry]
    dsimp only
    rw [hget]
    dsimp only
    rw [if_pos hv]
  · intro hv
    simp only [addDependency]
    rw [htry]
    dsimp only
    rw [hget]
    dsimp only
    rw [if_neg hv]

/-- Closed witness for `c8_dependency_uniqueness`: a concrete call
sequence (add `a@1` twice — the second, conflicting `a@2` throws and
leaves the registry as it was — then remove `a`) reaches a
duplicate-free state, and upgrading an unspecified version replaces
the entry in place. -/
theorem c8_dependency_uniqueness_witness :
    DepsDistinct
      (depRun [.add "a@1" .runtime [], .add "a@2" .runtime [],
               .add "a" .dev [], .remove "a" (some .runtime)])
    ∧ addDependency
        [{ name := "a", version := none, dtype := .runtime, metadata := [] }]
        "a@1" .runtime [] =
      .ok ({ name := "a", version := some "1", dtype := .runtime,
             metadata := [] },
           [{ name := "a", version := some "1", dtype := .runtime,
              metadata := [] }]) :=
  ⟨c8_dependency_uniqueness.1 _,
   ((c8_dependency_uniqueness.2
      [{ name := "a", version := none, dtype := .runtime, metadata := [] }]
      "a@1" .runtime [] 0
      { name := "a", version := none, dtype := .runtime, metadata := [] }
      rfl rfl).1 (by simp)) ⟩
